import Mathlib

/-!
Verification of the r-trace path tracer core against its specification.

The Rust source (src/geometry/vec3.rs, src/geometry/mod.rs,
src/geometry/world.rs, src/color.rs, src/main.rs) is shallowly embedded
here.  `f32` scalars are idealized as exact rationals `ℚ` (the usual
idealization: rounding, NaN and signed-zero behaviour of IEEE floats are
out of scope).  The single `f32::INFINITY` upper bound used by the
integrator is modelled by `WithTop ℚ`, whose order on finite elements and
on `⊤` agrees with the float comparisons the source performs.  The square
root `f32::sqrt` is an abstract parameter `sq : ℚ → ℚ`; theorems that
need it assume only the pointwise facts the proof requires (nonnegativity
or exactness at the discriminant), and concrete evaluations use `sqrtQ`,
which is exact on perfect squares.
-/

namespace RTrace

/-- 3-component vector over ℚ, from `Vec3<f32>` in src/geometry/vec3.rs. -/
structure Vec3 where
  x : ℚ
  y : ℚ
  z : ℚ
deriving DecidableEq, Repr

/-- Componentwise addition, from `impl Add for Vec3`. -/
def vadd (u v : Vec3) : Vec3 := ⟨u.x + v.x, u.y + v.y, u.z + v.z⟩

/-- Componentwise subtraction, from `impl Sub for Vec3`. -/
def vsub (u v : Vec3) : Vec3 := ⟨u.x - v.x, u.y - v.y, u.z - v.z⟩

/-- Componentwise negation, from `impl Neg for Vec3`. -/
def vneg (u : Vec3) : Vec3 := ⟨-u.x, -u.y, -u.z⟩

/-- Scalar multiple, from `impl Mul<T> for Vec3` / `impl Mul<Vec3> for f32`. -/
def vsmul (k : ℚ) (u : Vec3) : Vec3 := ⟨k * u.x, k * u.y, k * u.z⟩

/-- Division by a scalar, from `impl Div<T> for Vec3`. -/
def vdiv (u : Vec3) (k : ℚ) : Vec3 := ⟨u.x / k, u.y / k, u.z / k⟩

/-- Dot product, from `dot` in src/geometry/vec3.rs. -/
def dot (u v : Vec3) : ℚ := u.x * v.x + u.y * v.y + u.z * v.z

/-- Cross product, from `cross` in src/geometry/vec3.rs. -/
def cross (u v : Vec3) : Vec3 :=
  ⟨u.y * v.z - u.z * v.y, u.z * v.x - u.x * v.z, u.x * v.y - u.y * v.x⟩

/-- `Vec3::ZERO`. -/
def Vec3.ZERO : Vec3 := ⟨0, 0, 0⟩

/-- `Vec3::I`. -/
def Vec3.I : Vec3 := ⟨1, 0, 0⟩

/-- `Vec3::J`. -/
def Vec3.J : Vec3 := ⟨0, 1, 0⟩

/-- `Vec3::K`. -/
def Vec3.K : Vec3 := ⟨0, 0, 1⟩

/-- `Vec3::magnitude`, with the square root abstracted as `sq`. -/
def Vec3.magnitude (sq : ℚ → ℚ) (v : Vec3) : ℚ :=
  sq (v.x * v.x + v.y * v.y + v.z * v.z)

/-- `Vec3::normalize`: `*self / self.magnitude()`. -/
def Vec3.normalize (sq : ℚ → ℚ) (v : Vec3) : Vec3 :=
  vdiv v (v.magnitude sq)

/-- A concrete square-root function on ℚ, exact on ratios of perfect
squares (all concrete evaluations below only apply it to those); used to
instantiate the abstract `sq` parameter in witnesses. -/
def sqrtQ (q : ℚ) : ℚ := (Nat.sqrt q.num.toNat : ℚ) / (Nat.sqrt q.den : ℚ)

theorem sqrtQ_nonneg (q : ℚ) : 0 ≤ sqrtQ q := by
  unfold sqrtQ
  positivity

/-- RGB color over ℚ, from `Color` in src/color.rs. -/
structure Color where
  r : ℚ
  g : ℚ
  b : ℚ
deriving DecidableEq, Repr

/-- `impl Add for Color`. -/
def cadd (a b : Color) : Color := ⟨a.r + b.r, a.g + b.g, a.b + b.b⟩

/-- `impl Mul<f32> for Color` / `impl Mul<Color> for f32`. -/
def csmul (k : ℚ) (a : Color) : Color := ⟨k * a.r, k * a.g, k * a.b⟩

/-- `impl Mul<Color> for Color` (componentwise). -/
def cmul (a b : Color) : Color := ⟨a.r * b.r, a.g * b.g, a.b * b.b⟩

/-- `impl Div<f32> for Color`. -/
def cdiv (a : Color) (k : ℚ) : Color := ⟨a.r / k, a.g / k, a.b / k⟩

/-- `Color::BLACK`. -/
def Color.BLACK : Color := ⟨0, 0, 0⟩

/-- `Color::WHITE`. -/
def Color.WHITE : Color := ⟨1, 1, 1⟩

/-- `Color::LIGHT_BLUE`. -/
def Color.LIGHT_BLUE : Color := ⟨1/4, 1/2, 1⟩

/-- `blend` from src/color.rs: `c1 * factor + c2 * (1.0 - factor)`. -/
def blend (c1 c2 : Color) (factor : ℚ) : Color :=
  cadd (csmul factor c1) (csmul (1 - factor) c2)

/-- `Ray` from src/geometry/mod.rs. -/
structure Ray where
  origin : Vec3
  direction : Vec3
deriving DecidableEq, Repr

/-- `HitInfo` from src/geometry/mod.rs; the source field `at` is a Lean
keyword, so it is written `at'`. -/
structure HitInfo where
  t : ℚ
  normal : Vec3
  at' : Vec3
deriving DecidableEq, Repr

/-- `Sphere` from src/geometry/mod.rs. -/
structure Sphere where
  center : Vec3
  radius : ℚ
deriving DecidableEq, Repr

/-- `Plane` from src/geometry/mod.rs (field order as in the source:
`normal` then `point`). -/
structure Plane where
  normal : Vec3
  point : Vec3
deriving DecidableEq, Repr

/-- `oc = r.origin - self.center` in `Sphere::hit`. -/
def sphOC (s : Sphere) (r : Ray) : Vec3 := vsub r.origin s.center

/-- `a = dot(r.direction, r.direction)` in `Sphere::hit`. -/
def sphA (r : Ray) : ℚ := dot r.direction r.direction

/-- `half_b = dot(oc, r.direction)` in `Sphere::hit`. -/
def sphHalfB (s : Sphere) (r : Ray) : ℚ := dot (sphOC s r) r.direction

/-- `c = dot(oc, oc) - radius * radius` in `Sphere::hit`. -/
def sphC (s : Sphere) (r : Ray) : ℚ :=
  dot (sphOC s r) (sphOC s r) - s.radius * s.radius

/-- `discrim = half_b * half_b - a * c` in `Sphere::hit`. -/
def sphDisc (s : Sphere) (r : Ray) : ℚ :=
  sphHalfB s r * sphHalfB s r - sphA r * sphC s r

/-- The first root tried by `Sphere::hit`: `(-half_b - discrim.sqrt()) / a`. -/
def sphT1 (sq : ℚ → ℚ) (s : Sphere) (r : Ray) : ℚ :=
  (-sphHalfB s r - sq (sphDisc s r)) / sphA r

/-- The fallback root of `Sphere::hit`: `(-half_b + discrim.sqrt()) / a`. -/
def sphT2 (sq : ℚ → ℚ) (s : Sphere) (r : Ray) : ℚ :=
  (-sphHalfB s r + sq (sphDisc s r)) / sphA r

/-- The `HitInfo` built by `Sphere::hit` at parameter `t`:
`at = origin + direction * t`, `normal = (at - center) / radius`. -/
def sphInfo (s : Sphere) (r : Ray) (t : ℚ) : HitInfo :=
  ⟨t, vdiv (vsub (vadd r.origin (vsmul t r.direction)) s.center) s.radius,
    vadd r.origin (vsmul t r.direction)⟩

/-- `Sphere::hit` from src/geometry/mod.rs.  The source assigns the first
root to a mutable `t` and reassigns the second on window failure; that
control flow is rendered as the equivalent branch cascade.  The window
checks are the source's `t < t_min || t > t_max` (inclusive acceptance at
both endpoints). -/
def Sphere.hit (sq : ℚ → ℚ) (s : Sphere) (r : Ray) (tmin : ℚ)
    (tmax : WithTop ℚ) : Option HitInfo :=
  if sphDisc s r < 0 then none
  else if sphT1 sq s r < tmin ∨ tmax < (sphT1 sq s r : WithTop ℚ) then
    if sphT2 sq s r < tmin ∨ tmax < (sphT2 sq s r : WithTop ℚ) then none
    else some (sphInfo s r (sphT2 sq s r))
  else some (sphInfo s r (sphT1 sq s r))

/-- `d = dot(self.normal, r.direction)` in `Plane::hit`. -/
def plnD (p : Plane) (r : Ray) : ℚ := dot p.normal r.direction

/-- `t = dot(self.point - r.origin, self.normal) / d` in `Plane::hit`. -/
def plnT (p : Plane) (r : Ray) : ℚ :=
  dot (vsub p.point r.origin) p.normal / plnD p r

/-- `Plane::hit` from src/geometry/mod.rs: exact-zero parallel check, and
the source's strict rejection `t <= t_min || t >= t_max`. -/
def Plane.hit (p : Plane) (r : Ray) (tmin : ℚ) (tmax : WithTop ℚ) :
    Option HitInfo :=
  if plnD p r = 0 then none
  else if plnT p r ≤ tmin ∨ tmax ≤ (plnT p r : WithTop ℚ) then none
  else some ⟨plnT p r, p.normal, vadd r.origin (vsmul (plnT p r) r.direction)⟩

/-- The closed set of surface kinds stored behind `Box<dyn Hittable>` in
this program (only `Sphere` and `Plane` values are ever pushed). -/
inductive Surface where
  | sphere (s : Sphere)
  | plane (p : Plane)
deriving DecidableEq, Repr

/-- Dispatch of the `Hittable::hit` trait method. -/
def Surface.hit (sq : ℚ → ℚ) : Surface → Ray → ℚ → WithTop ℚ → Option HitInfo
  | .sphere s => s.hit sq
  | .plane p => p.hit

/-- The nearest-hit loop shared by `World::hit` (src/geometry/world.rs)
and the inlined copy in `ray_color` (src/main.rs): each surface after the
first recorded hit is queried with the upper bound shrunk to the current
best `t`. -/
def hitLoop (sq : ℚ → ℚ) (r : Ray) (tmin : ℚ) (tmax : WithTop ℚ) :
    List Surface → Option HitInfo → Option HitInfo
  | [], best => best
  | b :: rest, best =>
    match
      (match best with
        | none => b.hit sq r tmin tmax
        | some hi => b.hit sq r tmin (hi.t : WithTop ℚ)) with
    | some newHi => hitLoop sq r tmin tmax rest (some newHi)
    | none => hitLoop sq r tmin tmax rest best

/-- `World::hit` from src/geometry/world.rs (also the literal loop body of
`ray_color` in src/main.rs). -/
def worldHit (sq : ℚ → ℚ) (objs : List Surface) (r : Ray) (tmin : ℚ)
    (tmax : WithTop ℚ) : Option HitInfo :=
  hitLoop sq r tmin tmax objs none

/-- `a = dot(direction, direction)` is a sum of squares. -/
lemma sphA_nonneg (r : Ray) : 0 ≤ sphA r := by
  unfold sphA dot
  have hx := mul_self_nonneg r.direction.x
  have hy := mul_self_nonneg r.direction.y
  have hz := mul_self_nonneg r.direction.z
  linarith

/-- Any `t` of the form `(-half_b ± sqd) / a` with `sqd * sqd` equal to the
discriminant is a genuine root of the quadratic `a t² + 2 half_b t + c`. -/
lemma root_eq (a hb c sqd t : ℚ) (ha : a ≠ 0)
    (hs : sqd * sqd = hb * hb - a * c)
    (ht : t = (-hb - sqd) / a ∨ t = (-hb + sqd) / a) :
    a * (t * t) + 2 * hb * t + c = 0 := by
  rcases ht with h | h <;> subst h <;> field_simp <;>
    linear_combination a ^ 2 * hs

/-- C9: for every pair of colors, `blend a b 0 = b`, `blend a b 1 = a`
exactly, and `blend a b (1/2)` is the arithmetic midpoint of `a` and `b`,
where `blend(c1, c2, factor) = c1*factor + c2*(1-factor)`. -/
theorem c9_blend_endpoints_midpoint (a b : Color) :
    blend a b 0 = b ∧ blend a b 1 = a ∧ blend a b (1/2) = cdiv (cadd a b) 2 := by
  obtain ⟨ar, ag, ab⟩ := a
  obtain ⟨br, bg, bb⟩ := b
  refine ⟨?_, ?_, ?_⟩ <;>
    simp only [blend, cadd, csmul, cdiv, Color.mk.injEq] <;>
    refine ⟨by ring, by ring, by ring⟩

/-- C6: `Plane.hit` returns no hit when `dot(normal, direction) = 0`;
otherwise it returns `t = dot(point − origin, normal) / d` exactly when
`t` is strictly inside `(t_min, t_max)`, with the stored normal returned
unchanged and the hit point on the plane; concretely, the ray from
`(0,1,0)` toward `(0,−1,0)` against the plane `{point 0, normal (0,1,0)}`
hits at `t = 1` with hit point `(0,0,0)`. -/
theorem c6_plane_hit (p : Plane) (r : Ray) (tmin : ℚ) (tmax : WithTop ℚ) :
    (plnD p r = 0 → Plane.hit p r tmin tmax = none)
    ∧ (plnD p r ≠ 0 →
        Plane.hit p r tmin tmax =
          if plnT p r ≤ tmin ∨ tmax ≤ (plnT p r : WithTop ℚ) then none
          else some ⟨plnT p r, p.normal,
            vadd r.origin (vsmul (plnT p r) r.direction)⟩)
    ∧ (∀ hi, Plane.hit p r tmin tmax = some hi →
        hi.t = plnT p r ∧ hi.normal = p.normal
        ∧ dot p.normal (vsub hi.at' p.point) = 0)
    ∧ Plane.hit ⟨Vec3.J, Vec3.ZERO⟩ ⟨Vec3.J, vneg Vec3.J⟩ 0 ⊤ =
        some ⟨1, Vec3.J, Vec3.ZERO⟩ := by
  refine ⟨?_, ?_, ?_, by
    norm_num [Plane.hit, plnD, plnT, dot, vadd, vsub, vneg, vsmul, Vec3.J,
      Vec3.ZERO]⟩
  · intro h
    simp [Plane.hit, h]
  · intro hd
    simp [Plane.hit, hd]
  · intro hi hhit
    unfold Plane.hit at hhit
    split_ifs at hhit with h1 h2
    obtain rfl := Option.some.inj hhit
    refine ⟨rfl, rfl, ?_⟩
    obtain ⟨⟨nx, ny, nz⟩, ⟨px, py, pz⟩⟩ := p
    obtain ⟨⟨ox, oy, oz⟩, ⟨dx, dy, dz⟩⟩ := r
    simp only [plnD, plnT, dot, vsub, vadd, vsmul] at h1 ⊢
    field_simp
    ring

/-- C5: `Sphere.hit` returns no hit when the discriminant
`half_b² − a·c` is negative; on success the hit point is
`origin + t·direction`, the normal is `(hit_point − center)/radius`, the
returned `t` is the smaller root `(−half_b − √disc)/a` whenever that root
passes the window test and otherwise the larger root `(−half_b + √disc)/a`
— which then passed the window test itself; when both roots fail the
window test there is no hit; and (when the square root is exact at the
discriminant and `a ≠ 0`) the returned `t` solves the quadratic
`a t² + 2 half_b t + c = 0`. -/
theorem c5_sphere_hit_quadratic (sq : ℚ → ℚ) (s : Sphere) (r : Ray)
    (tmin : ℚ) (tmax : WithTop ℚ) :
    (sphDisc s r < 0 → Sphere.hit sq s r tmin tmax = none)
    ∧ (∀ hi, Sphere.hit sq s r tmin tmax = some hi →
        hi.at' = vadd r.origin (vsmul hi.t r.direction)
        ∧ hi.normal = vdiv (vsub hi.at' s.center) s.radius
        ∧ ((¬(sphT1 sq s r < tmin ∨ tmax < (sphT1 sq s r : WithTop ℚ))
              ∧ hi.t = sphT1 sq s r)
           ∨ ((sphT1 sq s r < tmin ∨ tmax < (sphT1 sq s r : WithTop ℚ))
              ∧ ¬(sphT2 sq s r < tmin ∨ tmax < (sphT2 sq s r : WithTop ℚ))
              ∧ hi.t = sphT2 sq s r)))
    ∧ ((sphT1 sq s r < tmin ∨ tmax < (sphT1 sq s r : WithTop ℚ)) →
        (sphT2 sq s r < tmin ∨ tmax < (sphT2 sq s r : WithTop ℚ)) →
        Sphere.hit sq s r tmin tmax = none)
    ∧ (∀ hi, sq (sphDisc s r) * sq (sphDisc s r) = sphDisc s r →
        sphA r ≠ 0 → Sphere.hit sq s r tmin tmax = some hi →
        sphA r * (hi.t * hi.t) + 2 * sphHalfB s r * hi.t + sphC s r = 0) := by
  refine ⟨?_, ?_, ?_, ?_⟩
  · intro h
    simp [Sphere.hit, h]
  · intro hi hhit
    unfold Sphere.hit at hhit
    split_ifs at hhit with h1 h2 h3
    · obtain rfl := Option.some.inj hhit
      exact ⟨rfl, rfl, Or.inr ⟨h2, h3, rfl⟩⟩
    · obtain rfl := Option.some.inj hhit
      exact ⟨rfl, rfl, Or.inl ⟨h2, rfl⟩⟩
  · intro ht1 ht2
    unfold Sphere.hit
    split_ifs with h1 h2 h3 <;>
      first
        | rfl
        | exact absurd ht2 h3
        | exact absurd ht1 h2
  · intro hi hsq ha hhit
    have hs : sq (sphDisc s r) * sq (sphDisc s r) =
        sphHalfB s r * sphHalfB s r - sphA r * sphC s r := by
      rw [hsq]; rfl
    unfold Sphere.hit at hhit
    split_ifs at hhit with h1 h2 h3
    · obtain rfl := Option.some.inj hhit
      exact root_eq _ _ _ _ _ ha hs (Or.inr rfl)
    · obtain rfl := Option.some.inj hhit
      exact root_eq _ _ _ _ _ ha hs (Or.inl rfl)

/-- With a nonnegative square root the first root tried by `Sphere::hit`
is never larger than the fallback root. -/
lemma sphT1_le_sphT2 (sq : ℚ → ℚ) (s : Sphere) (r : Ray)
    (hsq : 0 ≤ sq (sphDisc s r)) : sphT1 sq s r ≤ sphT2 sq s r := by
  unfold sphT1 sphT2
  rcases eq_or_lt_of_le (sphA_nonneg r) with h | h
  · rw [← h]
    simp
  · exact (div_le_div_iff_of_pos_right h).mpr (by linarith)

/-- Unfolding equation for the sphere case of the trait dispatch. -/
lemma Surface.hit_sphere (sq : ℚ → ℚ) (s : Sphere) (r : Ray) (tmin : ℚ)
    (tmax : WithTop ℚ) :
    Surface.hit sq (.sphere s) r tmin tmax = Sphere.hit sq s r tmin tmax := rfl

/-- Unfolding equation for the plane case of the trait dispatch. -/
lemma Surface.hit_plane (sq : ℚ → ℚ) (p : Plane) (r : Ray) (tmin : ℚ)
    (tmax : WithTop ℚ) :
    Surface.hit sq (.plane p) r tmin tmax = Plane.hit p r tmin tmax := rfl

/-- An accepted hit of any surface lies inside the queried window
(inclusively; spheres accept the endpoints, planes are strict). -/
lemma hit_good (sq : ℚ → ℚ) (s : Surface) (r : Ray) (tmin : ℚ)
    (tmax : WithTop ℚ) (hi : HitInfo) (h : s.hit sq r tmin tmax = some hi) :
    tmin ≤ hi.t ∧ (hi.t : WithTop ℚ) ≤ tmax := by
  cases s with
  | sphere s =>
    rw [Surface.hit_sphere] at h
    unfold Sphere.hit at h
    split_ifs at h with h1 h2 h3
    · obtain rfl := Option.some.inj h
      push_neg at h3
      exact ⟨le_of_not_lt (fun hc => absurd hc (by simpa using h3.1)), h3.2⟩
    · obtain rfl := Option.some.inj h
      push_neg at h2
      exact ⟨le_of_not_lt (fun hc => absurd hc (by simpa using h2.1)), h2.2⟩
  | plane p =>
    rw [Surface.hit_plane] at h
    unfold Plane.hit at h
    split_ifs at h with h1 h2
    obtain rfl := Option.some.inj h
    push_neg at h2
    exact ⟨le_of_lt h2.1, le_of_lt h2.2⟩

/-- A hit accepted in a shrunken window is also what the surface reports
on any enclosing window (the value, not merely existence, is preserved). -/
lemma hit_shrink_some (sq : ℚ → ℚ) (hsq : ∀ x, 0 ≤ sq x) (s : Surface)
    (r : Ray) (tmin : ℚ) (tmax' tmax : WithTop ℚ) (hle : tmax' ≤ tmax)
    (hi : HitInfo) (h : s.hit sq r tmin tmax' = some hi) :
    s.hit sq r tmin tmax = some hi := by
  cases s with
  | sphere s =>
    have h12 := sphT1_le_sphT2 sq s r (hsq _)
    rw [Surface.hit_sphere] at h ⊢
    unfold Sphere.hit at h ⊢
    split_ifs at h with h1 h2 h3
    · -- fallback root accepted in the small window
      push_neg at h3
      have ht2 : ¬(sphT2 sq s r < tmin ∨ tmax < (sphT2 sq s r : WithTop ℚ)) := by
        push_neg
        exact ⟨h3.1, le_trans h3.2 hle⟩
      have ht1 : sphT1 sq s r < tmin := by
        rcases h2 with h2 | h2
        · exact h2
        · exfalso
          have hc : (sphT1 sq s r : WithTop ℚ) ≤ tmax' :=
            le_trans (WithTop.coe_le_coe.mpr h12) h3.2
          exact absurd h2 (not_lt_of_le hc)
      rw [if_neg h1, if_pos (Or.inl ht1), if_neg ht2]
      exact h
    · -- first root accepted in the small window
      push_neg at h2
      have ht1 : ¬(sphT1 sq s r < tmin ∨ tmax < (sphT1 sq s r : WithTop ℚ)) := by
        push_neg
        exact ⟨h2.1, le_trans h2.2 hle⟩
      rw [if_neg h1, if_neg ht1]
      exact h
  | plane p =>
    rw [Surface.hit_plane] at h ⊢
    unfold Plane.hit at h ⊢
    split_ifs at h with h1 h2
    push_neg at h2
    have hcond : ¬(plnT p r ≤ tmin ∨ tmax ≤ (plnT p r : WithTop ℚ)) := by
      push_neg
      exact ⟨h2.1, lt_of_lt_of_le h2.2 hle⟩
    rw [if_neg h1, if_neg hcond]
    exact h

/-- If a surface reports nothing in a shrunken window but a hit in the
enclosing window, that hit lies at or beyond the shrunken upper bound. -/
lemma hit_shrink_none_bound (sq : ℚ → ℚ) (s : Surface) (r : Ray)
    (tmin : ℚ) (tmax' tmax : WithTop ℚ)
    (hnone : s.hit sq r tmin tmax' = none) (hi' : HitInfo)
    (h : s.hit sq r tmin tmax = some hi') :
    tmax' ≤ (hi'.t : WithTop ℚ) := by
  cases s with
  | sphere s =>
    rw [Surface.hit_sphere] at hnone h
    unfold Sphere.hit at hnone h
    split_ifs at h with h1 h2 h3
    · -- the big window returned the fallback root
      push_neg at h3
      rw [if_neg h1] at hnone
      split_ifs at hnone with h4 h5
      obtain rfl := Option.some.inj h
      rcases h5 with h5 | h5
      · exact absurd h5 (not_lt_of_le h3.1)
      · exact le_of_lt h5
    · -- the big window returned the first root
      push_neg at h2
      rw [if_neg h1] at hnone
      split_ifs at hnone with h4 h5
      · obtain rfl := Option.some.inj h
        rcases h4 with h4 | h4
        · exact absurd h4 (not_lt_of_le h2.1)
        · exact le_of_lt h4
  | plane p =>
    rw [Surface.hit_plane] at hnone h
    unfold Plane.hit at hnone h
    split_ifs at h with h1 h2
    obtain rfl := Option.some.inj h
    push_neg at h2
    rw [if_neg h1] at hnone
    split_ifs at hnone with h3
    rcases h3 with h3 | h3
    · exact absurd h3 (not_le_of_lt h2.1)
    · exact h3

/-- If every surface misses the full window, the nearest-hit loop started
with no recorded hit reports nothing. -/
lemma hitLoop_none_of_all_none (sq : ℚ → ℚ) (r : Ray) (tmin : ℚ)
    (tmax : WithTop ℚ) :
    ∀ objs : List Surface, (∀ s ∈ objs, s.hit sq r tmin tmax = none) →
    hitLoop sq r tmin tmax objs none = none := by
  intro objs
  induction objs with
  | nil => intro _; rfl
  | cons b rest ih =>
    intro hall
    have hb : b.hit sq r tmin tmax = none := hall b (by simp)
    simp only [hitLoop, hb]
    exact ih (fun s hs => hall s (by simp [hs]))

/-- Master invariant of the nearest-hit loop: starting from a window-valid
recorded best, the loop result is window-valid, is the verbatim report of
one of the surfaces on the original window (or the starting best), and is
a lower bound on every surface's report on the original window. -/
lemma hitLoop_spec (sq : ℚ → ℚ) (hsq : ∀ x, 0 ≤ sq x) (r : Ray)
    (tmin : ℚ) (tmax : WithTop ℚ) :
    ∀ (objs : List Surface) (best : Option HitInfo),
    (∀ hib, best = some hib → tmin ≤ hib.t ∧ (hib.t : WithTop ℚ) ≤ tmax) →
    (hitLoop sq r tmin tmax objs best = none →
      best = none ∧ ∀ s ∈ objs, s.hit sq r tmin tmax = none)
    ∧ (∀ hi, hitLoop sq r tmin tmax objs best = some hi →
        (tmin ≤ hi.t ∧ (hi.t : WithTop ℚ) ≤ tmax)
        ∧ ((∃ s ∈ objs, s.hit sq r tmin tmax = some hi) ∨ best = some hi)
        ∧ (∀ s ∈ objs, ∀ hi', s.hit sq r tmin tmax = some hi' → hi.t ≤ hi'.t)
        ∧ (∀ hib, best = some hib → hi.t ≤ hib.t)) := by
  intro objs
  induction objs with
  | nil =>
    intro best hGood
    refine ⟨fun h => ⟨h, by simp⟩, fun hi h => ?_⟩
    have hb : best = some hi := h
    refine ⟨hGood hi hb, Or.inr hb, by simp, fun hib hhib => ?_⟩
    rw [hb] at hhib
    obtain rfl := Option.some.inj hhib
    exact le_refl _
  | cons b rest ih =>
    intro best hGood
    cases best with
    | none =>
      cases hq : b.hit sq r tmin tmax with
      | none =>
        have hstep : hitLoop sq r tmin tmax (b :: rest) none =
            hitLoop sq r tmin tmax rest none := by
          simp only [hitLoop, hq]
        have IH := ih none (by simp)
        constructor
        · intro h
          rw [hstep] at h
          obtain ⟨-, hall⟩ := IH.1 h
          refine ⟨rfl, ?_⟩
          intro s hs
          rcases List.mem_cons.mp hs with rfl | hs
          · exact hq
          · exact hall s hs
        · intro hi h
          rw [hstep] at h
          obtain ⟨hgood, hmem, hmin, -⟩ := IH.2 hi h
          refine ⟨hgood, ?_, ?_, by simp⟩
          · rcases hmem with ⟨s, hs, hsh⟩ | habs
            · exact Or.inl ⟨s, by simp [hs], hsh⟩
            · exact absurd habs (by simp)
          · intro s hs hi' hsh
            rcases List.mem_cons.mp hs with rfl | hs
            · rw [hq] at hsh
              exact absurd hsh (by simp)
            · exact hmin s hs hi' hsh
      | some newHi =>
        have hstep : hitLoop sq r tmin tmax (b :: rest) none =
            hitLoop sq r tmin tmax rest (some newHi) := by
          simp only [hitLoop, hq]
        have hgoodNew := hit_good sq b r tmin tmax newHi hq
        have IH := ih (some newHi) (fun hib hhib => by
          obtain rfl := Option.some.inj hhib
          exact hgoodNew)
        constructor
        · intro h
          rw [hstep] at h
          obtain ⟨habs, -⟩ := IH.1 h
          exact absurd habs (by simp)
        · intro hi h
          rw [hstep] at h
          obtain ⟨hgood, hmem, hmin, hbnd⟩ := IH.2 hi h
          refine ⟨hgood, ?_, ?_, by simp⟩
          · rcases hmem with ⟨s, hs, hsh⟩ | hbe
            · exact Or.inl ⟨s, by simp [hs], hsh⟩
            · obtain rfl := Option.some.inj hbe
              exact Or.inl ⟨b, by simp, hq⟩
          · intro s hs hi' hsh
            rcases List.mem_cons.mp hs with rfl | hs
            · rw [hq] at hsh
              obtain rfl := Option.some.inj hsh
              exact hbnd _ rfl
            · exact hmin s hs hi' hsh
    | some hib =>
      have hgoodB := hGood hib rfl
      cases hq : b.hit sq r tmin (hib.t : WithTop ℚ) with
      | none =>
        have hstep : hitLoop sq r tmin tmax (b :: rest) (some hib) =
            hitLoop sq r tmin tmax rest (some hib) := by
          simp only [hitLoop, hq]
        have IH := ih (some hib) (fun hib' hhib => by
          obtain rfl := Option.some.inj hhib
          exact hgoodB)
        constructor
        · intro h
          rw [hstep] at h
          obtain ⟨habs, -⟩ := IH.1 h
          exact absurd habs (by simp)
        · intro hi h
          rw [hstep] at h
          obtain ⟨hgood, hmem, hmin, hbnd⟩ := IH.2 hi h
          refine ⟨hgood, ?_, ?_, ?_⟩
          · rcases hmem with ⟨s, hs, hsh⟩ | hbe
            · exact Or.inl ⟨s, by simp [hs], hsh⟩
            · exact Or.inr hbe
          · intro s hs hi' hsh
            rcases List.mem_cons.mp hs with rfl | hs
            · have hbound := hit_shrink_none_bound sq s r tmin
                (hib.t : WithTop ℚ) tmax hq hi' hsh
              have hle : hib.t ≤ hi'.t := WithTop.coe_le_coe.mp hbound
              exact le_trans (hbnd hib rfl) hle
            · exact hmin s hs hi' hsh
          · intro hib' hhib
            obtain rfl := Option.some.inj hhib
            exact hbnd _ rfl
      | some newHi =>
        have hstep : hitLoop sq r tmin tmax (b :: rest) (some hib) =
            hitLoop sq r tmin tmax rest (some newHi) := by
          simp only [hitLoop, hq]
        have hgoodSmall := hit_good sq b r tmin (hib.t : WithTop ℚ) newHi hq
        have hbig : b.hit sq r tmin tmax = some newHi :=
          hit_shrink_some sq hsq b r tmin (hib.t : WithTop ℚ) tmax
            hgoodB.2 newHi hq
        have hgoodNew : tmin ≤ newHi.t ∧ (newHi.t : WithTop ℚ) ≤ tmax :=
          ⟨hgoodSmall.1, le_trans hgoodSmall.2 hgoodB.2⟩
        have IH := ih (some newHi) (fun hib' hhib => by
          obtain rfl := Option.some.inj hhib
          exact hgoodNew)
        constructor
        · intro h
          rw [hstep] at h
          obtain ⟨habs, -⟩ := IH.1 h
          exact absurd habs (by simp)
        · intro hi h
          rw [hstep] at h
          obtain ⟨hgood, hmem, hmin, hbnd⟩ := IH.2 hi h
          refine ⟨hgood, ?_, ?_, ?_⟩
          · rcases hmem with ⟨s, hs, hsh⟩ | hbe
            · exact Or.inl ⟨s, by simp [hs], hsh⟩
            · obtain rfl := Option.some.inj hbe
              exact Or.inl ⟨b, by simp, hbig⟩
          · intro s hs hi' hsh
            rcases List.mem_cons.mp hs with rfl | hs
            · rw [hbig] at hsh
              obtain rfl := Option.some.inj hsh
              exact hbnd _ rfl
            · exact hmin s hs hi' hsh
          · intro hib' hhib
            obtain rfl := Option.some.inj hhib
            have h1 : hi.t ≤ newHi.t := hbnd newHi rfl
            have h2 : newHi.t ≤ hib.t := WithTop.coe_le_coe.mp hgoodSmall.2
            exact le_trans h1 h2

/-- Window-validity of the loop result, for an arbitrary square-root
function (no hypotheses on `sq` are needed for the bound itself). -/
lemma hitLoop_good (sq : ℚ → ℚ) (r : Ray) (tmin : ℚ) (tmax : WithTop ℚ) :
    ∀ (objs : List Surface) (best : Option HitInfo),
    (∀ hib, best = some hib → tmin ≤ hib.t ∧ (hib.t : WithTop ℚ) ≤ tmax) →
    ∀ hi, hitLoop sq r tmin tmax objs best = some hi →
      tmin ≤ hi.t ∧ (hi.t : WithTop ℚ) ≤ tmax := by
  intro objs
  induction objs with
  | nil =>
    intro best hGood hi h
    exact hGood hi h
  | cons b rest ih =>
    intro best hGood hi h
    cases best with
    | none =>
      cases hq : b.hit sq r tmin tmax with
      | none =>
        rw [show hitLoop sq r tmin tmax (b :: rest) none =
            hitLoop sq r tmin tmax rest none by simp only [hitLoop, hq]] at h
        exact ih none (by simp) hi h
      | some newHi =>
        rw [show hitLoop sq r tmin tmax (b :: rest) none =
            hitLoop sq r tmin tmax rest (some newHi) by
          simp only [hitLoop, hq]] at h
        exact ih (some newHi) (fun hib hhib => by
          obtain rfl := Option.some.inj hhib
          exact hit_good sq b r tmin tmax _ hq) hi h
    | some hib =>
      have hgoodB := hGood hib rfl
      cases hq : b.hit sq r tmin (hib.t : WithTop ℚ) with
      | none =>
        rw [show hitLoop sq r tmin tmax (b :: rest) (some hib) =
            hitLoop sq r tmin tmax rest (some hib) by
          simp only [hitLoop, hq]] at h
        exact ih (some hib) (fun hib' hhib => by
          obtain rfl := Option.some.inj hhib
          exact hgoodB) hi h
      | some newHi =>
        rw [show hitLoop sq r tmin tmax (b :: rest) (some hib) =
            hitLoop sq r tmin tmax rest (some newHi) by
          simp only [hitLoop, hq]] at h
        have hgoodSmall := hit_good sq b r tmin (hib.t : WithTop ℚ) newHi hq
        exact ih (some newHi) (fun hib' hhib => by
          obtain rfl := Option.some.inj hhib
          exact ⟨hgoodSmall.1, le_trans hgoodSmall.2 hgoodB.2⟩) hi h

/-- C1: for every ray, window and surface list, `World::hit` reports
nothing exactly when every surface misses, and otherwise returns the
verbatim hit of one of the surfaces whose `t` is a lower bound on every
surface's hit over the original window (the globally nearest hit); in
particular, for two spheres intersected along one ray it returns the one
with smaller `t` in either list order; and each surface after the first
recorded hit is queried with the upper bound shrunk to the current best
`t`. -/
theorem c1_scene_nearest_hit (sq : ℚ → ℚ) (hsq : ∀ x, 0 ≤ sq x)
    (objs : List Surface) (r : Ray) (tmin : ℚ) (tmax : WithTop ℚ) :
    (worldHit sq objs r tmin tmax = none ↔
      ∀ s ∈ objs, s.hit sq r tmin tmax = none)
    ∧ (∀ hi, worldHit sq objs r tmin tmax = some hi →
        (∃ s ∈ objs, s.hit sq r tmin tmax = some hi)
        ∧ ∀ s ∈ objs, ∀ hi', s.hit sq r tmin tmax = some hi' → hi.t ≤ hi'.t)
    ∧ (∀ s1 s2 hi1 hi2,
        Surface.hit sq s1 r tmin tmax = some hi1 →
        Surface.hit sq s2 r tmin tmax = some hi2 → hi1.t < hi2.t →
        worldHit sq [s1, s2] r tmin tmax = some hi1
        ∧ worldHit sq [s2, s1] r tmin tmax = some hi1)
    ∧ (∀ b rest hib,
        hitLoop sq r tmin tmax (b :: rest) (some hib) =
          match b.hit sq r tmin (hib.t : WithTop ℚ) with
          | some newHi => hitLoop sq r tmin tmax rest (some newHi)
          | none => hitLoop sq r tmin tmax rest (some hib)) := by
  have spec := hitLoop_spec sq hsq r tmin tmax objs none (by simp)
  refine ⟨⟨fun h => (spec.1 h).2, fun h => hitLoop_none_of_all_none
    sq r tmin tmax objs h⟩, ?_, ?_, fun b rest hib => rfl⟩
  · intro hi h
    obtain ⟨-, hmem, hmin, -⟩ := spec.2 hi h
    refine ⟨?_, hmin⟩
    rcases hmem with hm | habs
    · exact hm
    · exact absurd habs (by simp)
  · intro s1 s2 hi1 hi2 h1 h2 hlt
    have key : ∀ l : List Surface, s1 ∈ l → s2 ∈ l →
        (∀ s ∈ l, s = s1 ∨ s = s2) →
        worldHit sq l r tmin tmax = some hi1 := by
      intro l hm1 hm2 hsub
      have specl := hitLoop_spec sq hsq r tmin tmax l none (by simp)
      cases hres : worldHit sq l r tmin tmax with
      | none =>
        have := (specl.1 hres).2 s1 hm1
        rw [h1] at this
        exact absurd this (by simp)
      | some hi =>
        obtain ⟨-, hmem, hmin, -⟩ := specl.2 hi hres
        rcases hmem with ⟨s, hs, hsh⟩ | habs
        · rcases hsub s hs with rfl | rfl
          · rw [h1] at hsh
            obtain rfl := Option.some.inj hsh
            rfl
          · rw [h2] at hsh
            obtain rfl := Option.some.inj hsh
            have hle : hi2.t ≤ hi1.t := hmin s1 hm1 hi1 h1
            exact absurd hlt (not_lt_of_le hle)
        · exact absurd habs (by simp)
    constructor
    · exact key [s1, s2] (by simp) (by simp) (by
        intro s hs
        rcases List.mem_cons.mp hs with rfl | hs
        · exact Or.inl rfl
        · simp at hs
          exact Or.inr hs)
    · exact key [s2, s1] (by simp) (by simp) (by
        intro s hs
        rcases List.mem_cons.mp hs with rfl | hs
        · exact Or.inr rfl
        · simp at hs
          exact Or.inl hs)

/-- C1 witness: for the two concrete spheres at depth 2 and 5 along the
`z` axis, `World::hit` returns the nearer one even when it is listed
second. -/
theorem c1_witness :
    worldHit sqrtQ
      [Surface.sphere ⟨⟨0, 0, 6⟩, 1⟩, Surface.sphere ⟨⟨0, 0, 3⟩, 1⟩]
      ⟨Vec3.ZERO, Vec3.K⟩ 0 ⊤ =
      some (sphInfo ⟨⟨0, 0, 3⟩, 1⟩ ⟨Vec3.ZERO, Vec3.K⟩ 2) := by
  have h := (c1_scene_nearest_hit sqrtQ sqrtQ_nonneg []
      ⟨Vec3.ZERO, Vec3.K⟩ 0 ⊤).2.2.1
    (Surface.sphere ⟨⟨0, 0, 3⟩, 1⟩) (Surface.sphere ⟨⟨0, 0, 6⟩, 1⟩)
    (sphInfo ⟨⟨0, 0, 3⟩, 1⟩ ⟨Vec3.ZERO, Vec3.K⟩ 2)
    (sphInfo ⟨⟨0, 0, 6⟩, 1⟩ ⟨Vec3.ZERO, Vec3.K⟩ 5)
    (by norm_num [Surface.hit, Sphere.hit, sphDisc, sphA, sphHalfB, sphC,
      sphT1, sphT2, sphOC, sphInfo, sqrtQ, dot, vsub, vadd, vsmul, vdiv,
      Vec3.ZERO, Vec3.K, not_top_lt])
    (by norm_num [Surface.hit, Sphere.hit, sphDisc, sphA, sphHalfB, sphC,
      sphT1, sphT2, sphOC, sphInfo, sqrtQ, dot, vsub, vadd, vsmul, vdiv,
      Vec3.ZERO, Vec3.K, not_top_lt])
    (by norm_num [sphInfo])
  exact h.2

/-- C4 counterexample: the claim says accepted hits satisfy
`t_min < t < t_max` strictly for every surface kind, but `Sphere::hit`
accepts the window endpoints: this sphere-ray pair returns a hit with
`t` exactly equal to `t_min = 1` (and the square root used is exact:
`sqrtQ 1 = 1`, as `f32::sqrt` also is at 1). -/
theorem c4_counterexample :
    Sphere.hit sqrtQ ⟨⟨0, 0, 2⟩, 1⟩ ⟨Vec3.ZERO, Vec3.K⟩ 1
        ((10 : ℚ) : WithTop ℚ) =
      some (sphInfo ⟨⟨0, 0, 2⟩, 1⟩ ⟨Vec3.ZERO, Vec3.K⟩ 1)
    ∧ (sphInfo ⟨⟨0, 0, 2⟩, 1⟩ ⟨Vec3.ZERO, Vec3.K⟩ 1).t = 1
    ∧ ¬((1 : ℚ) < (sphInfo ⟨⟨0, 0, 2⟩, 1⟩ ⟨Vec3.ZERO, Vec3.K⟩ 1).t)
    ∧ sqrtQ 1 = 1 := by
  refine ⟨?_, by norm_num [sphInfo], by norm_num [sphInfo], by
    norm_num [sqrtQ]⟩
  norm_num [Sphere.hit, sphDisc, sphA, sphHalfB, sphC, sphT1, sphT2,
    sphOC, sphInfo, sqrtQ, dot, vsub, vadd, vsmul, vdiv, Vec3.ZERO, Vec3.K]

/-- C4 amended: accepted hits lie inside the window, but inclusively for
`Sphere::hit` (endpoints can be returned) and for the aggregate, while
`Plane::hit` alone enforces the strict bounds the claim states. -/
theorem c4_amended_window_bounds (sq : ℚ → ℚ) (s : Sphere) (p : Plane)
    (objs : List Surface) (r : Ray) (tmin : ℚ) (tmax : WithTop ℚ) :
    (∀ hi, Sphere.hit sq s r tmin tmax = some hi →
        tmin ≤ hi.t ∧ (hi.t : WithTop ℚ) ≤ tmax)
    ∧ (∀ hi, Plane.hit p r tmin tmax = some hi →
        tmin < hi.t ∧ (hi.t : WithTop ℚ) < tmax)
    ∧ (∀ hi, worldHit sq objs r tmin tmax = some hi →
        tmin ≤ hi.t ∧ (hi.t : WithTop ℚ) ≤ tmax) := by
  refine ⟨?_, ?_, ?_⟩
  · intro hi h
    exact hit_good sq (.sphere s) r tmin tmax hi
      (by rw [Surface.hit_sphere]; exact h)
  · intro hi h
    unfold Plane.hit at h
    split_ifs at h with h1 h2
    obtain rfl := Option.some.inj h
    push_neg at h2
    exact h2
  · intro hi h
    exact hitLoop_good sq r tmin tmax objs none (by simp) hi h

/-- C4 amended witness: the sphere hit accepted at exactly `t = t_min`
still satisfies the inclusive bounds of the amended claim. -/
theorem c4_amended_witness :
    (1 : ℚ) ≤ (sphInfo ⟨⟨0, 0, 2⟩, 1⟩ ⟨Vec3.ZERO, Vec3.K⟩ 1).t
    ∧ ((sphInfo ⟨⟨0, 0, 2⟩, 1⟩ ⟨Vec3.ZERO, Vec3.K⟩ 1).t : WithTop ℚ) ≤
        ((10 : ℚ) : WithTop ℚ) := by
  exact (c4_amended_window_bounds sqrtQ ⟨⟨0, 0, 2⟩, 1⟩ ⟨Vec3.J, Vec3.ZERO⟩ []
      ⟨Vec3.ZERO, Vec3.K⟩ 1 ((10 : ℚ) : WithTop ℚ)).1
    (sphInfo ⟨⟨0, 0, 2⟩, 1⟩ ⟨Vec3.ZERO, Vec3.K⟩ 1)
    (by norm_num [Sphere.hit, sphDisc, sphA, sphHalfB, sphC, sphT1, sphT2,
      sphOC, sphInfo, sqrtQ, dot, vsub, vadd, vsmul, vdiv, Vec3.ZERO,
      Vec3.K])

/-- C5 witness: at the concrete sphere of radius 1 centered at `(0,0,3)`
and the axis ray, the returned `t = 2` solves the quadratic exactly. -/
theorem c5_witness :
    sphA ⟨Vec3.ZERO, Vec3.K⟩ *
        ((sphInfo ⟨⟨0, 0, 3⟩, 1⟩ ⟨Vec3.ZERO, Vec3.K⟩ 2).t *
          (sphInfo ⟨⟨0, 0, 3⟩, 1⟩ ⟨Vec3.ZERO, Vec3.K⟩ 2).t)
      + 2 * sphHalfB ⟨⟨0, 0, 3⟩, 1⟩ ⟨Vec3.ZERO, Vec3.K⟩ *
          (sphInfo ⟨⟨0, 0, 3⟩, 1⟩ ⟨Vec3.ZERO, Vec3.K⟩ 2).t
      + sphC ⟨⟨0, 0, 3⟩, 1⟩ ⟨Vec3.ZERO, Vec3.K⟩ = 0 := by
  exact (c5_sphere_hit_quadratic sqrtQ ⟨⟨0, 0, 3⟩, 1⟩ ⟨Vec3.ZERO, Vec3.K⟩
      0 ⊤).2.2.2
    (sphInfo ⟨⟨0, 0, 3⟩, 1⟩ ⟨Vec3.ZERO, Vec3.K⟩ 2)
    (by norm_num [sphDisc, sphA, sphHalfB, sphC, sphOC, sqrtQ, dot, vsub,
      Vec3.ZERO, Vec3.K])
    (by norm_num [sphA, dot, Vec3.ZERO, Vec3.K])
    (by norm_num [Sphere.hit, sphDisc, sphA, sphHalfB, sphC, sphT1, sphT2,
      sphOC, sphInfo, sqrtQ, dot, vsub, vadd, vsmul, vdiv, Vec3.ZERO,
      Vec3.K, not_top_lt])

/-- C6 witness: the plane-hit facts instantiated at the spec's concrete
ray and plane: the normal is returned unchanged and the hit point lies on
the plane. -/
theorem c6_witness :
    (⟨1, Vec3.J, Vec3.ZERO⟩ : HitInfo).normal = Vec3.J
    ∧ dot Vec3.J (vsub (⟨1, Vec3.J, Vec3.ZERO⟩ : HitInfo).at' Vec3.ZERO)
        = 0 := by
  have h := (c6_plane_hit ⟨Vec3.J, Vec3.ZERO⟩ ⟨Vec3.J, vneg Vec3.J⟩
      0 ⊤).2.2.1 ⟨1, Vec3.J, Vec3.ZERO⟩
    (by norm_num [Plane.hit, plnD, plnT, dot, vadd, vsub, vneg, vsmul,
      Vec3.J, Vec3.ZERO])
  exact ⟨h.2.1, h.2.2⟩

/-- `EPSILON` from src/main.rs (`0.00001`, idealized as an exact
rational). -/
def EPSILON : ℚ := 1 / 100000

/-- One loop iteration's candidate vector in `Vec3::random_unit_ball`:
three consecutive draws of `random::<f32>()` (modelled as the stream
`g : ℕ → ℚ` read at index `i`), each mapped by `2.0 * x - 1.0`. -/
def candidate (g : ℕ → ℚ) (i : ℕ) : Vec3 :=
  ⟨2 * g i - 1, 2 * g (i + 1) - 1, 2 * g (i + 2) - 1⟩

/-- `Vec3::random_unit_ball` from src/geometry/vec3.rs: rejection-sample
candidates until `dot(v, v) < 1.0`.  The source's unbounded `loop` is
modelled with explicit fuel; `none` means the inspected prefix of the
random stream never produced an in-ball candidate.  On success, returns
the accepted vector and the index of the next unconsumed draw. -/
def randomUnitBall (g : ℕ → ℚ) : ℕ → ℕ → Option (Vec3 × ℕ)
  | _, 0 => none
  | i, fuel + 1 =>
    if dot (candidate g i) (candidate g i) < 1 then some (candidate g i, i + 3)
    else randomUnitBall g (i + 3) fuel

/-- The hemisphere flip in `ray_color`: negate the sampled direction when
it points into the surface. -/
def bounceDir (n d : Vec3) : Vec3 := if dot n d < 0 then vneg d else d

/-- The miss branch of `ray_color`: vertical sky gradient
`blend(LIGHT_BLUE, WHITE, 0.5 * (unit_dir.y + 1.0))`. -/
def skyColor (sq : ℚ → ℚ) (v : Vec3) : Color :=
  blend Color.LIGHT_BLUE Color.WHITE ((1/2) * ((Vec3.normalize sq v).y + 1))

/-- `ray_color` from src/main.rs.  The scene query repeats the
`World::hit` loop verbatim (the source inlines it), the random draw is
`random_unit_ball` (not normalized), and the hit branch returns
`0.8 * dot(normal, direction) * ray_color(bounce, depth - 1)`.  The
process-wide RNG is threaded explicitly as a stream index; the result is
`none` only when the rejection-sampling fuel runs out. -/
def rayColor (sq : ℚ → ℚ) (g : ℕ → ℚ) (fuel : ℕ) (objs : List Surface) :
    ℕ → Ray → ℕ → Option (Color × ℕ)
  | 0, _, i => some (Color.BLACK, i)
  | depth + 1, r, i =>
    match worldHit sq objs r EPSILON ⊤ with
    | some hi =>
      match randomUnitBall g i fuel with
      | none => none
      | some (d, i') =>
        match rayColor sq g fuel objs depth
            ⟨hi.at', bounceDir hi.normal d⟩ i' with
        | none => none
        | some (c, i'') =>
          some (csmul (0.8 * dot hi.normal (bounceDir hi.normal d)) c, i'')
    | none => some (skyColor sq r.direction, i)

/-- The depth argument `main` passes to the integrator:
`ray_color(&r, &world, args.bounces + 1)` in src/main.rs. -/
def shadeDepth (bounces : ℕ) : ℕ := bounces + 1

/-- C3: at depth 0 the integrator returns pure black, for every square
root, random stream and fuel, every scene and every ray. -/
theorem c3_depth_zero_black (sq : ℚ → ℚ) (g : ℕ → ℚ) (fuel : ℕ)
    (objs : List Surface) (r : Ray) (i : ℕ) :
    rayColor sq g fuel objs 0 r i = some (Color.BLACK, i) := rfl

/-- The dot product is linear in negation of the second argument. -/
lemma dot_vneg (n d : Vec3) : dot n (vneg d) = -dot n d := by
  simp only [dot, vneg]
  ring

/-- One unfolding of the hit branch of `ray_color`: on a recorded nearest
hit and a successful ball sample, the result is the recursive call on the
bounce ray scaled by `0.8 * dot(normal, direction)`. -/
lemma rayColor_hit_step (sq : ℚ → ℚ) (g : ℕ → ℚ) (fuel : ℕ)
    (objs : List Surface) (r : Ray) (depth i : ℕ) (hi : HitInfo)
    (d : Vec3) (i' : ℕ)
    (hhit : worldHit sq objs r EPSILON ⊤ = some hi)
    (hrub : randomUnitBall g i fuel = some (d, i')) :
    rayColor sq g fuel objs (depth + 1) r i =
      Option.map
        (fun p => (csmul (0.8 * dot hi.normal (bounceDir hi.normal d)) p.1,
          p.2))
        (rayColor sq g fuel objs depth ⟨hi.at', bounceDir hi.normal d⟩ i') := by
  simp only [rayColor, hhit, hrub]
  cases rayColor sq g fuel objs depth ⟨hi.at', bounceDir hi.normal d⟩ i' with
  | none => rfl
  | some p =>
    cases p
    rfl

/-- One unfolding of the miss branch of `ray_color`: when no surface is
hit the sky gradient of the ray direction is returned and the random
stream is left untouched. -/
lemma rayColor_miss_step (sq : ℚ → ℚ) (g : ℕ → ℚ) (fuel : ℕ)
    (objs : List Surface) (r : Ray) (depth i : ℕ)
    (hmiss : worldHit sq objs r EPSILON ⊤ = none) :
    rayColor sq g fuel objs (depth + 1) r i =
      some (skyColor sq r.direction, i) := by
  simp only [rayColor, hmiss]

/-- The flipped bounce direction never points into the surface. -/
lemma dot_bounceDir_nonneg (n d : Vec3) : 0 ≤ dot n (bounceDir n d) := by
  unfold bounceDir
  split_ifs with h
  · rw [dot_vneg]
    linarith
  · exact le_of_not_lt h

/-- C2 amended: on a hit, the integrator samples a point of the unit ball
(in general not unit length), flips it into the hemisphere of the normal,
and scales the recursive result by `0.8 * dot(normal, direction)` — an
extra constant `0.8` albedo factor beyond the claimed pure Lambertian
`dot` term.  The flipped direction never points into the surface. -/
theorem c2_amended_bounce_scaling (sq : ℚ → ℚ) (g : ℕ → ℚ) (fuel : ℕ)
    (objs : List Surface) (r : Ray) (depth i : ℕ) (hi : HitInfo)
    (d : Vec3) (i' : ℕ)
    (hhit : worldHit sq objs r EPSILON ⊤ = some hi)
    (hrub : randomUnitBall g i fuel = some (d, i')) :
    rayColor sq g fuel objs (depth + 1) r i =
      Option.map
        (fun p => (csmul (0.8 * dot hi.normal (bounceDir hi.normal d)) p.1,
          p.2))
        (rayColor sq g fuel objs depth ⟨hi.at', bounceDir hi.normal d⟩ i')
    ∧ 0 ≤ dot hi.normal (bounceDir hi.normal d) :=
  ⟨rayColor_hit_step sq g fuel objs r depth i hi d i' hhit hrub,
    dot_bounceDir_nonneg hi.normal d⟩

/-- The fixed random stream used in the concrete integrator runs: its
first candidate vector is `(0, 1/2, 0)`, strictly inside the unit ball. -/
def gC2 : ℕ → ℚ := fun n => if n = 0 then 1/2 else if n = 1 then 3/4 else 1/2

/-- C2 counterexample: at a concrete plane scene, ray and random stream,
the integrator's value is `0.8 * dot * recursive`, which differs from the
claimed `dot * recursive` (no extra factor), and the sampled bounce
direction is a unit-ball point of non-unit length. -/
theorem c2_counterexample :
    rayColor sqrtQ gC2 1 [Surface.plane ⟨Vec3.J, Vec3.ZERO⟩] 2
        ⟨Vec3.J, vneg Vec3.J⟩ 0 = some (⟨1/10, 1/5, 2/5⟩, 3)
    ∧ (⟨1/10, 1/5, 2/5⟩ : Color) =
        csmul (0.8 * dot Vec3.J (bounceDir Vec3.J (candidate gC2 0)))
          Color.LIGHT_BLUE
    ∧ (⟨1/10, 1/5, 2/5⟩ : Color) ≠
        csmul (dot Vec3.J (bounceDir Vec3.J (candidate gC2 0)))
          Color.LIGHT_BLUE
    ∧ dot (candidate gC2 0) (candidate gC2 0) ≠ 1 := by
  refine ⟨?_,
    by norm_num [csmul, Color.LIGHT_BLUE, bounceDir, candidate, gC2, dot,
      vneg, Vec3.J, Color.mk.injEq],
    by norm_num [csmul, Color.LIGHT_BLUE, bounceDir, candidate, gC2, dot,
      vneg, Vec3.J, Color.mk.injEq],
    by norm_num [candidate, gC2, dot]⟩
  norm_num [show (2 : ℕ) = 1 + 1 from rfl, rayColor, worldHit, hitLoop,
    Surface.hit, Plane.hit, plnD, plnT, randomUnitBall, candidate, gC2,
    bounceDir, skyColor, blend, Vec3.normalize, Vec3.magnitude, sqrtQ,
    EPSILON, dot, vadd, vsub, vneg, vsmul, vdiv, csmul, cadd,
    Color.LIGHT_BLUE, Color.WHITE, Color.BLACK, Vec3.J, Vec3.ZERO,
    top_le_iff, WithTop.coe_ne_top, not_top_lt]

/-- C2 amended witness: the amended bounce-scaling equation instantiated
at the concrete plane scene, ray and random stream. -/
theorem c2_amended_witness :
    rayColor sqrtQ gC2 1 [Surface.plane ⟨Vec3.J, Vec3.ZERO⟩] 2
        ⟨Vec3.J, vneg Vec3.J⟩ 0 =
      Option.map
        (fun p => (csmul (0.8 * dot Vec3.J
            (bounceDir Vec3.J (candidate gC2 0))) p.1, p.2))
        (rayColor sqrtQ gC2 1 [Surface.plane ⟨Vec3.J, Vec3.ZERO⟩] 1
          ⟨⟨0, 0, 0⟩, bounceDir Vec3.J (candidate gC2 0)⟩ 3)
    ∧ 0 ≤ dot Vec3.J (bounceDir Vec3.J (candidate gC2 0)) := by
  have h := c2_amended_bounce_scaling sqrtQ gC2 1
    [Surface.plane ⟨Vec3.J, Vec3.ZERO⟩] ⟨Vec3.J, vneg Vec3.J⟩ 1 0
    ⟨1, Vec3.J, ⟨0, 0, 0⟩⟩ (candidate gC2 0) 3
    (by norm_num [worldHit, hitLoop, Surface.hit, Plane.hit, plnD, plnT,
      EPSILON, dot, vadd, vsub, vneg, vsmul, Vec3.J, Vec3.ZERO,
      top_le_iff, WithTop.coe_ne_top, HitInfo.mk.injEq, Vec3.mk.injEq])
    (by norm_num [randomUnitBall, candidate, gC2, dot])
  exact h

/-- `worldHit` over a one-element surface list coincides with that
surface's own hit. -/
lemma worldHit_singleton (sq : ℚ → ℚ) (s : Surface) (r : Ray) (tmin : ℚ)
    (tmax : WithTop ℚ) :
    worldHit sq [s] r tmin tmax = s.hit sq r tmin tmax := by
  cases h : s.hit sq r tmin tmax with
  | none => simp [worldHit, hitLoop, h]
  | some hi => simp [worldHit, hitLoop, h]

/-- A successful `Plane::hit` reports the plane's stored normal, the `t`
formula, and a hit point incident to the plane. -/
lemma plane_hit_facts (p : Plane) (r : Ray) (tmin : ℚ) (tmax : WithTop ℚ)
    (hi : HitInfo) (h : Plane.hit p r tmin tmax = some hi) :
    hi.t = plnT p r ∧ hi.normal = p.normal
    ∧ dot p.normal (vsub hi.at' p.point) = 0 := by
  unfold Plane.hit at h
  split_ifs at h with h1 h2
  obtain rfl := Option.some.inj h
  refine ⟨rfl, rfl, ?_⟩
  obtain ⟨⟨nx, ny, nz⟩, ⟨px, py, pz⟩⟩ := p
  obtain ⟨⟨ox, oy, oz⟩, ⟨dx, dy, dz⟩⟩ := r
  simp only [plnD, plnT, dot, vsub, vadd, vsmul] at h1 ⊢
  field_simp
  ring

/-- In a scene holding a single plane, a ray cast from a point of that
plane never records a hit within `[EPSILON, ∞)`: the only candidate `t`
is `0`, which the strict lower bound rejects, and parallel rays miss. -/
lemma plane_bounce_miss (sq : ℚ → ℚ) (pl : Plane) (r : Ray)
    (hi : HitInfo)
    (hhit : worldHit sq [Surface.plane pl] r EPSILON ⊤ = some hi)
    (dir : Vec3) :
    worldHit sq [Surface.plane pl] ⟨hi.at', dir⟩ EPSILON ⊤ = none := by
  rw [worldHit_singleton, Surface.hit_plane] at hhit ⊢
  obtain ⟨-, -, honp⟩ := plane_hit_facts pl r EPSILON ⊤ hi hhit
  unfold Plane.hit
  by_cases hd : plnD pl ⟨hi.at', dir⟩ = 0
  · rw [if_pos hd]
  · rw [if_neg hd]
    have hnum : dot (vsub pl.point hi.at') pl.normal = 0 := by
      simp only [dot, vsub] at honp ⊢
      linarith
    have ht : plnT pl ⟨hi.at', dir⟩ = 0 := by
      unfold plnT
      dsimp only
      rw [hnum, zero_div]
    rw [if_pos (Or.inl (by rw [ht]; norm_num [EPSILON]))]

/-- Scaling pure black leaves it pure black. -/
lemma csmul_black (k : ℚ) : csmul k Color.BLACK = Color.BLACK := by
  simp [csmul, Color.BLACK]

/-- C7 amended: `main` passes `bounces + 1` as the integrator depth, so
with the bounce parameter at 1 a plane-hitting ray gets its bounce ray
evaluated against the sky (in a plane-only scene the bounce always misses)
and yields the attenuated sky color `0.8 * dot * sky`, not black; raising
the parameter to 2 returns the identical value on this path; the black
"budget exhausted after the first hit" outcome occurs only at depth 1,
which corresponds to a bounce parameter of 0 (rejected by the CLI). -/
theorem c7_amended_depth_budget (sq : ℚ → ℚ) (g : ℕ → ℚ) (fuel : ℕ)
    (pl : Plane) (r : Ray) (i : ℕ) (hi : HitInfo) (d : Vec3) (i' : ℕ)
    (hhit : worldHit sq [Surface.plane pl] r EPSILON ⊤ = some hi)
    (hrub : randomUnitBall g i fuel = some (d, i')) :
    rayColor sq g fuel [Surface.plane pl] (shadeDepth 1) r i =
      some (csmul (0.8 * dot hi.normal (bounceDir hi.normal d))
        (skyColor sq (bounceDir hi.normal d)), i')
    ∧ rayColor sq g fuel [Surface.plane pl] (shadeDepth 2) r i =
        rayColor sq g fuel [Surface.plane pl] (shadeDepth 1) r i
    ∧ rayColor sq g fuel [Surface.plane pl] 1 r i =
        some (Color.BLACK, i') := by
  have hbm := plane_bounce_miss sq pl r hi hhit (bounceDir hi.normal d)
  have e1 : rayColor sq g fuel [Surface.plane pl] (shadeDepth 1) r i =
      Option.map
        (fun p => (csmul (0.8 * dot hi.normal (bounceDir hi.normal d)) p.1,
          p.2))
        (rayColor sq g fuel [Surface.plane pl] 1
          ⟨hi.at', bounceDir hi.normal d⟩ i') :=
    rayColor_hit_step sq g fuel [Surface.plane pl] r 1 i hi d i' hhit hrub
  have e2 : rayColor sq g fuel [Surface.plane pl] (shadeDepth 2) r i =
      Option.map
        (fun p => (csmul (0.8 * dot hi.normal (bounceDir hi.normal d)) p.1,
          p.2))
        (rayColor sq g fuel [Surface.plane pl] 2
          ⟨hi.at', bounceDir hi.normal d⟩ i') :=
    rayColor_hit_step sq g fuel [Surface.plane pl] r 2 i hi d i' hhit hrub
  have e3 : rayColor sq g fuel [Surface.plane pl] 1 r i =
      Option.map
        (fun p => (csmul (0.8 * dot hi.normal (bounceDir hi.normal d)) p.1,
          p.2))
        (rayColor sq g fuel [Surface.plane pl] 0
          ⟨hi.at', bounceDir hi.normal d⟩ i') :=
    rayColor_hit_step sq g fuel [Surface.plane pl] r 0 i hi d i' hhit hrub
  have m1 : rayColor sq g fuel [Surface.plane pl] 1
      ⟨hi.at', bounceDir hi.normal d⟩ i' =
      some (skyColor sq (bounceDir hi.normal d), i') :=
    rayColor_miss_step sq g fuel [Surface.plane pl]
      ⟨hi.at', bounceDir hi.normal d⟩ 0 i' hbm
  have m2 : rayColor sq g fuel [Surface.plane pl] 2
      ⟨hi.at', bounceDir hi.normal d⟩ i' =
      some (skyColor sq (bounceDir hi.normal d), i') :=
    rayColor_miss_step sq g fuel [Surface.plane pl]
      ⟨hi.at', bounceDir hi.normal d⟩ 1 i' hbm
  refine ⟨?_, ?_, ?_⟩
  · rw [e1, m1]
    rfl
  · rw [e2, m2, e1, m1]
  · rw [e3]
    show Option.map _ (some (Color.BLACK, i')) = _
    simp [Option.map, csmul_black]

/-- C7 counterexample: with the bounce parameter 1 (integrator depth
`bounces + 1 = 2`), a ray hitting the only ground plane of the scene does
not produce pure black: the single bounce is evaluated against the sky
and yields the attenuated nonzero color `(1/10, 1/5, 2/5)`. -/
theorem c7_counterexample :
    shadeDepth 1 = 2
    ∧ rayColor sqrtQ gC2 1 [Surface.plane ⟨Vec3.J, ⟨0, -(1/2), 0⟩⟩] 2
        ⟨⟨0, 2, 0⟩, ⟨0, -1, 0⟩⟩ 0 = some (⟨1/10, 1/5, 2/5⟩, 3)
    ∧ (⟨1/10, 1/5, 2/5⟩ : Color) ≠ Color.BLACK := by
  refine ⟨rfl, ?_, by norm_num [Color.BLACK, Color.mk.injEq]⟩
  norm_num [show (2 : ℕ) = 1 + 1 from rfl, rayColor, worldHit, hitLoop,
    Surface.hit, Plane.hit, plnD, plnT, randomUnitBall, candidate, gC2,
    bounceDir, skyColor, blend, Vec3.normalize, Vec3.magnitude, sqrtQ,
    EPSILON, dot, vadd, vsub, vneg, vsmul, vdiv, csmul, cadd,
    Color.LIGHT_BLUE, Color.WHITE, Color.BLACK, Vec3.J, Vec3.ZERO,
    top_le_iff, WithTop.coe_ne_top, not_top_lt]

/-- C7 amended witness: at the concrete ground-plane scene and ray,
raising the bounce parameter from 1 to 2 leaves the result unchanged, and
depth 1 gives pure black after the first hit. -/
theorem c7_amended_witness :
    rayColor sqrtQ gC2 1 [Surface.plane ⟨Vec3.J, ⟨0, -(1/2), 0⟩⟩]
        (shadeDepth 2) ⟨⟨0, 2, 0⟩, ⟨0, -1, 0⟩⟩ 0 =
      rayColor sqrtQ gC2 1 [Surface.plane ⟨Vec3.J, ⟨0, -(1/2), 0⟩⟩]
        (shadeDepth 1) ⟨⟨0, 2, 0⟩, ⟨0, -1, 0⟩⟩ 0
    ∧ rayColor sqrtQ gC2 1 [Surface.plane ⟨Vec3.J, ⟨0, -(1/2), 0⟩⟩] 1
        ⟨⟨0, 2, 0⟩, ⟨0, -1, 0⟩⟩ 0 = some (Color.BLACK, 3) := by
  have h := c7_amended_depth_budget sqrtQ gC2 1 ⟨Vec3.J, ⟨0, -(1/2), 0⟩⟩
    ⟨⟨0, 2, 0⟩, ⟨0, -1, 0⟩⟩ 0 ⟨5/2, Vec3.J, ⟨0, -(1/2), 0⟩⟩
    (candidate gC2 0) 3
    (by norm_num [worldHit, hitLoop, Surface.hit, Plane.hit, plnD, plnT,
      EPSILON, dot, vadd, vsub, vneg, vsmul, Vec3.J, top_le_iff,
      WithTop.coe_ne_top, HitInfo.mk.injEq, Vec3.mk.injEq])
    (by norm_num [randomUnitBall, candidate, gC2, dot])
  exact ⟨h.2.1, h.2.2⟩

/-- Split a character list into its leading run of ASCII digits and the
rest. -/
def takeDigits : List Char → List Char × List Char
  | [] => ([], [])
  | c :: cs =>
    if c.isDigit then
      let p := takeDigits cs
      (c :: p.1, p.2)
    else ([], c :: cs)

/-- Numeric value of a digit run. -/
def digitsToNat (ds : List Char) : ℕ :=
  ds.foldl (fun acc c => 10 * acc + (c.toNat - 48)) 0

/-- Magnitude part of a decimal token: digits, optionally followed by a
point and more digits; at least one digit overall, nothing else. -/
def parseFloatMag (cs : List Char) : Option ℚ :=
  let ip := takeDigits cs
  match ip.2 with
  | [] => if ip.1 = [] then none else some (digitsToNat ip.1 : ℚ)
  | '.' :: r2 =>
    let fp := takeDigits r2
    if fp.2 = [] then
      if ip.1 = [] ∧ fp.1 = [] then none
      else some ((digitsToNat ip.1 : ℚ) +
        (digitsToNat fp.1 : ℚ) / (10 : ℚ) ^ fp.1.length)
    else none
  | _ => none

/-- Modelled from Rust's `str::parse::<f32>` restricted to the decimal
forms the scene format uses (optional sign, integer digits, optional
fractional part), idealized to exact rationals; exponents and textual
infinities are not modelled.  `none` plays the role of
`ParseFloatError`. -/
def parseFloat (s : String) : Option ℚ :=
  match s.toList with
  | '-' :: rest => (parseFloatMag rest).map (fun q => -q)
  | '+' :: rest => parseFloatMag rest
  | cs => parseFloatMag cs

/-- Comment stripping in `load_world`: the slice of the line before the
first `#` (`chars().position(|c| c == '#')`). -/
def stripComment (s : String) : String :=
  String.mk (s.toList.takeWhile (fun c => c ≠ '#'))

/-- Accumulator pass of `split_whitespace`: maximal nonempty runs of
non-whitespace characters. -/
def wordsAux : List Char → List Char → List String
  | [], acc => if acc.isEmpty then [] else [String.mk acc.reverse]
  | c :: cs, acc =>
    if c.isWhitespace then
      if acc.isEmpty then wordsAux cs []
      else String.mk acc.reverse :: wordsAux cs []
    else wordsAux cs (c :: acc)

/-- `line.split_whitespace()` as a token list. -/
def tokenize (s : String) : List String := wordsAux s.toList []

/-- `WorldError` from src/geometry/world.rs; the payload of the wrapped
`std::io::Error` is abstracted to its message string. -/
inductive WorldError where
  | IOError (e : String)
  | ParseError (msg : String)
deriving DecidableEq, Repr

deriving instance DecidableEq for Except

/-- `consume::<f32>` from src/geometry/world.rs over the remaining token
list: parse the next token; on an exhausted iterator the source parses
the empty string, which always fails, so `[]` yields `none`. -/
def consumeF : List String → Option (ℚ × List String)
  | [] => none
  | w :: ws => (parseFloat w).map (fun q => (q, ws))

/-- The four `consume` calls of `parse_sphere`; remaining tokens are not
examined. -/
def sphereCore (ws : List String) : Option Sphere := do
  let (cx, ws) ← consumeF ws
  let (cy, ws) ← consumeF ws
  let (cz, ws) ← consumeF ws
  let (rad, _) ← consumeF ws
  pure ⟨⟨cx, cy, cz⟩, rad⟩

/-- `parse_sphere` from src/geometry/world.rs: a `ParseFloatError`
converts to `ParseError "expected f32"` via the `From` impl. -/
def parseSphere (ws : List String) : Except WorldError Sphere :=
  match sphereCore ws with
  | some s => .ok s
  | none => .error (.ParseError "expected f32")

/-- The six `consume` calls of `parse_plane` (point first, then normal),
returning the unconsumed tokens for the trailing-token check. -/
def planeCore (ws : List String) : Option (Plane × List String) := do
  let (px, ws) ← consumeF ws
  let (py, ws) ← consumeF ws
  let (pz, ws) ← consumeF ws
  let (nx, ws) ← consumeF ws
  let (ny, ws) ← consumeF ws
  let (nz, ws) ← consumeF ws
  pure (⟨⟨nx, ny, nz⟩, ⟨px, py, pz⟩⟩, ws)

/-- `parse_plane` from src/geometry/world.rs: after six floats the source
requires `words.next()` to be exhausted, else
`ParseError "unexpected symbol"`. -/
def parsePlane (ws : List String) : Except WorldError Plane :=
  match planeCore ws with
  | none => .error (.ParseError "expected f32")
  | some (p, []) => .ok p
  | some (_, _ :: _) => .error (.ParseError "unexpected symbol")

/-- Camera parameters as consumed by `parse_camera`
(src/geometry/world.rs lines 206-217): eye, look-at, fov, focal length.
`Camera::new`'s basis-vector computation (tan, π, normalize over f32) is
not modelled — no claim depends on it, and `parse_camera` as written does
not type-check in the source (its arity disagrees with its call site), so
only its token consumption, which is unambiguous, is embedded. -/
structure Camera where
  eye : Vec3
  lookAt : Vec3
  fov : ℚ
  focal : Option ℚ
deriving DecidableEq, Repr

/-- The eight `consume` calls of `parse_camera`; trailing tokens are not
examined. -/
def cameraCore (ws : List String) : Option Camera := do
  let (ex, ws) ← consumeF ws
  let (ey, ws) ← consumeF ws
  let (ez, ws) ← consumeF ws
  let (lx, ws) ← consumeF ws
  let (ly, ws) ← consumeF ws
  let (lz, ws) ← consumeF ws
  let (fov, ws) ← consumeF ws
  let (fl, _) ← consumeF ws
  pure ⟨⟨ex, ey, ez⟩, ⟨lx, ly, lz⟩, fov, some fl⟩

/-- `parse_camera` with the `ParseFloatError` conversion. -/
def parseCamera (ws : List String) : Except WorldError Camera :=
  match cameraCore ws with
  | some c => .ok c
  | none => .error (.ParseError "expected f32")

/-- The camera synthesized when no camera line is present:
`Camera::new(ZERO, K * 3, J, fov.unwrap_or(30.0), aspect, focal)`. -/
def defaultCamera (fl fv : Option ℚ) : Camera :=
  ⟨Vec3.ZERO, vsmul 3 Vec3.K, fv.getD 30, fl⟩

/-- One element of the input stream: `lines()` yields
`io::Result<String>`. -/
inductive IoLine where
  | fail (e : String)
  | text (s : String)
deriving DecidableEq, Repr

/-- `World` from src/geometry/world.rs. -/
structure World where
  objects : List Surface
  camera : Camera
deriving DecidableEq, Repr

/-- The `while let` loop of `load_world`: comment stripping, tokenizing,
dispatch on the leading token, duplicate-camera check before parsing, and
`?`-propagation of both error kinds. -/
def loadWorldGo (aspect : ℚ) (fl fv : Option ℚ) :
    List IoLine → List Surface → Option Camera → Except WorldError World
  | [], objs, cam => .ok ⟨objs, cam.getD (defaultCamera fl fv)⟩
  | .fail e :: _, _, _ => .error (.IOError e)
  | .text l :: rest, objs, cam =>
    match tokenize (stripComment l) with
    | [] => loadWorldGo aspect fl fv rest objs cam
    | w :: ws =>
      if w = "s" then
        match parseSphere ws with
        | .ok sp =>
          loadWorldGo aspect fl fv rest (objs ++ [Surface.sphere sp]) cam
        | .error e => .error e
      else if w = "p" then
        match parsePlane ws with
        | .ok pl =>
          loadWorldGo aspect fl fv rest (objs ++ [Surface.plane pl]) cam
        | .error e => .error e
      else if w = "c" then
        match cam with
        | some _ => .error (.ParseError "Multiple camera definitions")
        | none =>
          match parseCamera ws with
          | .ok cm => loadWorldGo aspect fl fv rest objs (some cm)
          | .error e => .error e
      else .error (.ParseError "Unexpected symbol")

/-- `load_world` from src/geometry/world.rs. -/
def loadWorld (input : List IoLine) (aspect : ℚ) (fl fv : Option ℚ) :
    Except WorldError World :=
  loadWorldGo aspect fl fv input [] none

/-- Success test on a parse result. -/
def exceptOk {α : Type} : Except WorldError α → Bool
  | .ok _ => true
  | .error _ => false

/-- A text line the parser accepts in isolation: blank/comment-only, or a
record line whose own parser succeeds. -/
def goodLine (l : String) : Bool :=
  match tokenize (stripComment l) with
  | [] => true
  | w :: ws =>
    if w = "s" then exceptOk (parseSphere ws)
    else if w = "p" then exceptOk (parsePlane ws)
    else if w = "c" then exceptOk (parseCamera ws)
    else false

/-- A stream element the parser accepts in isolation (an I/O failure
never is). -/
def lineGood : IoLine → Bool
  | .fail _ => false
  | .text s => goodLine s

/-- Whether a text line is a camera record (leading token `c`). -/
def isCamLine (s : String) : Bool :=
  match tokenize (stripComment s) with
  | w :: _ => w = "c"
  | [] => false

/-- Number of camera records in the stream. -/
def camCount (ls : List IoLine) : ℕ :=
  ls.countP (fun l => match l with
    | .text s => isCamLine s
    | .fail _ => false)

/-- Whether a camera has been recorded. -/
def camVal : Option Camera → ℕ
  | none => 0
  | some _ => 1

/-- The parser succeeds from any intermediate state exactly when every
remaining line parses in isolation and the total number of cameras (seen
and remaining) stays at most one. -/
lemma loadWorldGo_isOk (aspect : ℚ) (fl fv : Option ℚ) :
    ∀ (ls : List IoLine) (objs : List Surface) (cam : Option Camera),
    exceptOk (loadWorldGo aspect fl fv ls objs cam) = true ↔
      ((∀ l ∈ ls, lineGood l = true) ∧ camCount ls + camVal cam ≤ 1) := by
  intro ls
  induction ls with
  | nil =>
    intro objs cam
    constructor
    · intro _
      refine ⟨by simp, ?_⟩
      cases cam <;> simp [camCount, camVal]
    · intro _
      simp [loadWorldGo, exceptOk]
  | cons l rest ih =>
    intro objs cam
    cases l with
    | fail e =>
      simp [loadWorldGo, exceptOk, lineGood, List.forall_mem_cons]
    | text s =>
      have hcc : camCount (IoLine.text s :: rest) =
          camCount rest + (if isCamLine s then 1 else 0) := by
        simp [camCount, List.countP_cons]
      simp only [loadWorldGo]
      cases htok : tokenize (stripComment s) with
      | nil =>
        have hgl : goodLine s = true := by
          unfold goodLine
          rw [htok]
        have hic : isCamLine s = false := by
          unfold isCamLine
          rw [htok]
        dsimp only
        rw [ih objs cam]
        simp [List.forall_mem_cons, lineGood, hgl, hcc, hic]
      | cons w ws =>
        dsimp only
        have hgl : goodLine s =
            (if w = "s" then exceptOk (parseSphere ws)
             else if w = "p" then exceptOk (parsePlane ws)
             else if w = "c" then exceptOk (parseCamera ws)
             else false) := by
          unfold goodLine
          rw [htok]
        have hic : isCamLine s = decide (w = "c") := by
          unfold isCamLine
          rw [htok]
        by_cases hw : w = "s"
        · subst hw
          rw [if_pos rfl]
          cases hps : parseSphere ws with
          | ok sp =>
            rw [ih (objs ++ [Surface.sphere sp]) cam]
            simp [List.forall_mem_cons, lineGood, hgl, hps, exceptOk, hcc,
              hic]
          | error er =>
            simp [List.forall_mem_cons, lineGood, hgl, hps, exceptOk]
        · rw [if_neg hw]
          by_cases hw2 : w = "p"
          · subst hw2
            rw [if_pos rfl]
            cases hps : parsePlane ws with
            | ok pl =>
              rw [ih (objs ++ [Surface.plane pl]) cam]
              simp [List.forall_mem_cons, lineGood, hgl, hps, exceptOk, hcc,
                hic, hw]
            | error er =>
              simp [List.forall_mem_cons, lineGood, hgl, hps, exceptOk, hw]
          · rw [if_neg hw2]
            by_cases hw3 : w = "c"
            · subst hw3
              rw [if_pos rfl]
              cases cam with
              | some c0 =>
                simp [List.forall_mem_cons, lineGood, exceptOk, hcc, hic,
                  camVal]
              | none =>
                cases hpc : parseCamera ws with
                | ok cm =>
                  rw [ih objs (some cm)]
                  simp [List.forall_mem_cons, lineGood, hgl, hpc, exceptOk,
                    hcc, hic, hw, hw2, camVal]
                | error er =>
                  simp [List.forall_mem_cons, lineGood, hgl, hpc, exceptOk,
                    hw, hw2]
            · rw [if_neg hw3]
              simp [List.forall_mem_cons, lineGood, hgl, exceptOk, hw, hw2,
                hw3]

/-- `parse_sphere` only ever fails with the float-conversion message. -/
lemma parseSphere_error (ws : List String) (e : WorldError)
    (h : parseSphere ws = .error e) : e = .ParseError "expected f32" := by
  unfold parseSphere at h
  cases hsc : sphereCore ws <;> rw [hsc] at h <;> simp_all

/-- `parse_plane` only ever fails with a `ParseError`. -/
lemma parsePlane_error (ws : List String) (e : WorldError)
    (h : parsePlane ws = .error e) : ∃ msg, e = .ParseError msg := by
  unfold parsePlane at h
  cases hpc : planeCore ws with
  | none =>
    rw [hpc] at h
    exact ⟨"expected f32", by simp_all⟩
  | some pr =>
    obtain ⟨p, rem⟩ := pr
    rw [hpc] at h
    cases rem with
    | nil => simp_all
    | cons x xs => exact ⟨"unexpected symbol", by simp_all⟩

/-- `parse_camera` only ever fails with the float-conversion message. -/
lemma parseCamera_error (ws : List String) (e : WorldError)
    (h : parseCamera ws = .error e) : e = .ParseError "expected f32" := by
  unfold parseCamera at h
  cases hcc : cameraCore ws <;> rw [hcc] at h <;> simp_all

/-- Processing a prefix of individually acceptable lines with at most one
camera in total reaches the rest of the stream in some intermediate state
whose camera counter accounts for the prefix's camera lines. -/
lemma loadWorldGo_prefix (aspect : ℚ) (fl fv : Option ℚ) :
    ∀ (pre : List IoLine) (objs : List Surface) (cam : Option Camera),
    (∀ l ∈ pre, lineGood l = true) → camCount pre + camVal cam ≤ 1 →
    ∀ rest, ∃ objs' cam',
      loadWorldGo aspect fl fv (pre ++ rest) objs cam =
        loadWorldGo aspect fl fv rest objs' cam'
      ∧ camVal cam' = camVal cam + camCount pre := by
  intro pre
  induction pre with
  | nil =>
    intro objs cam _ _ rest
    exact ⟨objs, cam, rfl, by simp [camCount]⟩
  | cons l pre ih =>
    intro objs cam hgood hcnt rest
    cases l with
    | fail e =>
      have hc := hgood (.fail e) (by simp)
      simp [lineGood] at hc
    | text s =>
      have hgl : goodLine s = true := by
        have hc := hgood (.text s) (by simp)
        simpa [lineGood] using hc
      have hgood' : ∀ l ∈ pre, lineGood l = true := fun l hl =>
        hgood l (by simp [hl])
      have hcc : camCount (IoLine.text s :: pre) =
          camCount pre + (if isCamLine s then 1 else 0) := by
        simp [camCount, List.countP_cons]
      rw [List.cons_append]
      simp only [loadWorldGo]
      cases htok : tokenize (stripComment s) with
      | nil =>
        dsimp only
        have hic : isCamLine s = false := by
          unfold isCamLine
          rw [htok]
        rw [hcc, hic] at hcnt
        simp at hcnt
        obtain ⟨objs', cam', heq, hv⟩ := ih objs cam hgood'
          (by omega) rest
        refine ⟨objs', cam', heq, ?_⟩
        rw [hv, hcc, hic]
        simp
      | cons w ws =>
        dsimp only
        unfold goodLine at hgl
        rw [htok] at hgl
        dsimp only at hgl
        have hic : isCamLine s = decide (w = "c") := by
          unfold isCamLine
          rw [htok]
        by_cases hw : w = "s"
        · subst hw
          rw [if_pos rfl]
          rw [if_pos rfl] at hgl
          cases hps : parseSphere ws with
          | error er =>
            rw [hps] at hgl
            simp [exceptOk] at hgl
          | ok sp =>
            dsimp only
            have hic' : isCamLine s = false := by
              rw [hic]
              simp
            rw [hcc, hic'] at hcnt
            simp at hcnt
            obtain ⟨objs', cam', heq, hv⟩ :=
              ih (objs ++ [Surface.sphere sp]) cam hgood' (by omega) rest
            refine ⟨objs', cam', heq, ?_⟩
            rw [hv, hcc, hic']
            simp
        · rw [if_neg hw]
          rw [if_neg hw] at hgl
          by_cases hw2 : w = "p"
          · subst hw2
            rw [if_pos rfl]
            rw [if_pos rfl] at hgl
            cases hps : parsePlane ws with
            | error er =>
              rw [hps] at hgl
              simp [exceptOk] at hgl
            | ok pl =>
              dsimp only
              have hic' : isCamLine s = false := by
                rw [hic]
                simp
              rw [hcc, hic'] at hcnt
              simp at hcnt
              obtain ⟨objs', cam', heq, hv⟩ :=
                ih (objs ++ [Surface.plane pl]) cam hgood' (by omega) rest
              refine ⟨objs', cam', heq, ?_⟩
              rw [hv, hcc, hic']
              simp
          · rw [if_neg hw2]
            rw [if_neg hw2] at hgl
            by_cases hw3 : w = "c"
            · subst hw3
              rw [if_pos rfl]
              rw [if_pos rfl] at hgl
              have hic' : isCamLine s = true := by
                rw [hic]
                simp
              rw [hcc, hic'] at hcnt
              simp at hcnt
              cases cam with
              | some c0 =>
                simp [camVal] at hcnt
              | none =>
                cases hpc : parseCamera ws with
                | error er =>
                  rw [hpc] at hgl
                  simp [exceptOk] at hgl
                | ok cm =>
                  dsimp only
                  have hpre0 : camCount pre = 0 := by
                    simp [camVal] at hcnt
                    omega
                  obtain ⟨objs', cam', heq, hv⟩ :=
                    ih objs (some cm) hgood'
                      (by simp [camVal, hpre0]) rest
                  refine ⟨objs', cam', heq, ?_⟩
                  rw [hv, hcc, hic']
                  simp [camVal, hpre0]
            · rw [if_neg hw3]
              rw [if_neg hw3] at hgl
              simp at hgl

/-- C8: `load_world` succeeds exactly when every line is a readable
blank/comment, sphere, plane or camera record and at most one camera line
occurs; a reachable I/O failure propagates as `IOError`; a reachable
malformed or unknown line is a `ParseError`; a reachable second camera
line is the duplicate-camera `ParseError`; and no partial scene escapes
(an error carries no `World`).  The spec's concrete examples evaluate as
stated. -/
theorem c8_parser_errors :
    (∀ (input : List IoLine) (aspect : ℚ) (fl fv : Option ℚ),
      exceptOk (loadWorld input aspect fl fv) = true ↔
        ((∀ l ∈ input, lineGood l = true) ∧ camCount input ≤ 1))
    ∧ (∀ (pre : List IoLine) (e : String) (rest : List IoLine)
        (aspect : ℚ) (fl fv : Option ℚ),
        (∀ l ∈ pre, lineGood l = true) → camCount pre ≤ 1 →
        loadWorld (pre ++ IoLine.fail e :: rest) aspect fl fv =
          .error (.IOError e))
    ∧ (∀ (pre : List IoLine) (s : String) (rest : List IoLine)
        (aspect : ℚ) (fl fv : Option ℚ),
        (∀ l ∈ pre, lineGood l = true) → camCount pre ≤ 1 →
        goodLine s = false →
        ∃ msg, loadWorld (pre ++ IoLine.text s :: rest) aspect fl fv =
          .error (.ParseError msg))
    ∧ (∀ (pre : List IoLine) (s : String) (rest : List IoLine)
        (aspect : ℚ) (fl fv : Option ℚ),
        (∀ l ∈ pre, lineGood l = true) → camCount pre = 1 →
        isCamLine s = true →
        loadWorld (pre ++ IoLine.text s :: rest) aspect fl fv =
          .error (.ParseError "Multiple camera definitions"))
    ∧ Except.map World.objects
        (loadWorld [IoLine.text "s 0 0 3 1", IoLine.text "p 0 -1 0 0 1 0"]
          1 none none) =
        .ok [Surface.sphere ⟨⟨0, 0, 3⟩, 1⟩,
          Surface.plane ⟨⟨0, 1, 0⟩, ⟨0, -1, 0⟩⟩]
    ∧ loadWorld [IoLine.text "x 1 2 3"] 1 none none =
        .error (.ParseError "Unexpected symbol")
    ∧ loadWorld [IoLine.text "c 0 0 0 0 0 3 30 3",
        IoLine.text "c 0 0 0 0 0 3 30 3"] 1 none none =
        .error (.ParseError "Multiple camera definitions") := by
  refine ⟨?_, ?_, ?_, ?_, by decide, by decide, by decide⟩
  · intro input aspect fl fv
    rw [loadWorld, loadWorldGo_isOk]
    simp [camVal]
  · intro pre e rest aspect fl fv hgood hcnt
    obtain ⟨objs', cam', heq, -⟩ := loadWorldGo_prefix aspect fl fv pre []
      none hgood (by simp [camVal, hcnt]) (IoLine.fail e :: rest)
    rw [loadWorld, heq]
    rfl
  · intro pre s rest aspect fl fv hgood hcnt hbad
    obtain ⟨objs', cam', heq, -⟩ := loadWorldGo_prefix aspect fl fv pre []
      none hgood (by simp [camVal, hcnt]) (IoLine.text s :: rest)
    rw [loadWorld, heq]
    simp only [loadWorldGo]
    unfold goodLine at hbad
    cases htok : tokenize (stripComment s) with
    | nil =>
      rw [htok] at hbad
      simp at hbad
    | cons w ws =>
      rw [htok] at hbad
      dsimp only at hbad ⊢
      by_cases hw : w = "s"
      · subst hw
        rw [if_pos rfl] at hbad ⊢
        cases hps : parseSphere ws with
        | ok sp =>
          rw [hps] at hbad
          simp [exceptOk] at hbad
        | error er =>
          dsimp only
          obtain rfl := parseSphere_error ws er hps
          exact ⟨"expected f32", rfl⟩
      · rw [if_neg hw] at hbad ⊢
        by_cases hw2 : w = "p"
        · subst hw2
          rw [if_pos rfl] at hbad ⊢
          cases hps : parsePlane ws with
          | ok pl =>
            rw [hps] at hbad
            simp [exceptOk] at hbad
          | error er =>
            dsimp only
            obtain ⟨msg, rfl⟩ := parsePlane_error ws er hps
            exact ⟨msg, rfl⟩
        · rw [if_neg hw2] at hbad ⊢
          by_cases hw3 : w = "c"
          · subst hw3
            rw [if_pos rfl] at hbad ⊢
            cases cam' with
            | some c0 => exact ⟨"Multiple camera definitions", rfl⟩
            | none =>
              cases hpc : parseCamera ws with
              | ok cm =>
                rw [hpc] at hbad
                simp [exceptOk] at hbad
              | error er =>
                dsimp only
                obtain rfl := parseCamera_error ws er hpc
                exact ⟨"expected f32", rfl⟩
          · rw [if_neg hw3]
            exact ⟨"Unexpected symbol", rfl⟩
  · intro pre s rest aspect fl fv hgood hcnt hcam
    obtain ⟨objs', cam', heq, hv⟩ := loadWorldGo_prefix aspect fl fv pre []
      none hgood (by simp [camVal, hcnt]) (IoLine.text s :: rest)
    rw [loadWorld, heq]
    have hsome : ∃ c0, cam' = some c0 := by
      cases cam' with
      | none => simp [camVal, hcnt] at hv
      | some c0 => exact ⟨c0, rfl⟩
    obtain ⟨c0, rfl⟩ := hsome
    simp only [loadWorldGo]
    unfold isCamLine at hcam
    cases htok : tokenize (stripComment s) with
    | nil =>
      rw [htok] at hcam
      simp at hcam
    | cons w ws =>
      rw [htok] at hcam
      dsimp only at hcam ⊢
      have hwc : w = "c" := by simpa using hcam
      subst hwc
      rw [if_neg (by decide), if_neg (by decide), if_pos rfl]

/-- C8 witness: an I/O failure after one well-formed sphere line
propagates as `IOError` with its message. -/
theorem c8_witness :
    loadWorld ([IoLine.text "s 0 0 3 1"] ++ IoLine.fail "broken pipe" :: [])
      1 none none = .error (.IOError "broken pipe") :=
  c8_parser_errors.2.1 [IoLine.text "s 0 0 3 1"] "broken pipe" [] 1 none
    none (by decide) (by decide)

/-- C10: `parse_sphere` consumes four floats and never looks at the rest
of the line, so trailing junk is accepted and ignored, while
`parse_plane` demands exhaustion after its six floats and rejects any
trailing token with `ParseError "unexpected symbol"`; the two concrete
lines behave accordingly under `load_world`. -/
theorem c10_trailing_tokens :
    (∀ (t1 t2 t3 t4 : String) (rest : List String) (q1 q2 q3 q4 : ℚ),
        parseFloat t1 = some q1 → parseFloat t2 = some q2 →
        parseFloat t3 = some q3 → parseFloat t4 = some q4 →
        parseSphere ([t1, t2, t3, t4] ++ rest) =
          .ok ⟨⟨q1, q2, q3⟩, q4⟩)
    ∧ (∀ (w1 w2 w3 w4 w5 w6 x : String) (rest : List String)
        (q1 q2 q3 q4 q5 q6 : ℚ),
        parseFloat w1 = some q1 → parseFloat w2 = some q2 →
        parseFloat w3 = some q3 → parseFloat w4 = some q4 →
        parseFloat w5 = some q5 → parseFloat w6 = some q6 →
        parsePlane (w1 :: w2 :: w3 :: w4 :: w5 :: w6 :: x :: rest) =
          .error (.ParseError "unexpected symbol"))
    ∧ Except.map World.objects
        (loadWorld [IoLine.text "s 0 0 3 1 junk"] 1 none none) =
        .ok [Surface.sphere ⟨⟨0, 0, 3⟩, 1⟩]
    ∧ loadWorld [IoLine.text "p 0 -1 0 0 1 0 junk"] 1 none none =
        .error (.ParseError "unexpected symbol") := by
  refine ⟨?_, ?_, by decide, by decide⟩
  · intro t1 t2 t3 t4 rest q1 q2 q3 q4 h1 h2 h3 h4
    simp [parseSphere, sphereCore, consumeF, h1, h2, h3, h4]
  · intro w1 w2 w3 w4 w5 w6 x rest q1 q2 q3 q4 q5 q6 h1 h2 h3 h4 h5 h6
    simp [parsePlane, planeCore, consumeF, h1, h2, h3, h4, h5, h6]

/-- C10 witness: the plane-rejection branch instantiated at the concrete
tokens of the spec's plane line followed by one junk token. -/
theorem c10_witness :
    parsePlane ["0", "-1", "0", "0", "1", "0", "junk"] =
      .error (.ParseError "unexpected symbol") :=
  c10_trailing_tokens.2.1 "0" "-1" "0" "0" "1" "0" "junk" []
    0 (-1) 0 0 1 0 (by decide) (by decide) (by decide) (by decide)
    (by decide) (by decide)

end RTrace
